import Mathlib

/-!
Shallow embedding of `cosmpy/common/rest_client.py` (`RestClient`).

A protobuf request message is represented by its `MessageToDict` image: an
association list from field name to a scalar string or a list of scalar
strings (`MessageToDict` omits unset/empty fields, so empty lists do not
occur in practice; theorems that need this take it as a hypothesis).
The HTTP transport is represented by a function from the issued request to
the `Response` the session returns; the session itself is state carrying an
identifier, a closed flag, and logs of the requests issued through it, so
that "which URL was targeted" and "how many POSTs were issued" are facts
about the final state.
-/

/-- An HTTP response as `requests` exposes it: numeric status code and raw
body bytes (bytes as `Nat` values < 256). -/
structure Response where
  status_code : Nat
  content : List Nat
deriving DecidableEq

/-- A value in the `MessageToDict` image of a request: a scalar (rendered as
a string) or a repeated field (list of scalars). -/
inductive QueryValue where
  | scalar : String → QueryValue
  | list : List String → QueryValue
deriving DecidableEq

/-- The encoded mapping produced by `MessageToDict`: an ordered dict from
field name to value. -/
abbrev Dict := List (String × QueryValue)

/-- The keys of an encoded mapping. -/
def keys (m : Dict) : List String := m.map Prod.fst

/-- Python `dict.pop(key)` with no default: remove the entry for `key`,
raising `KeyError(key)` when absent.  Modelled on the association list as
removal of the first entry with that key (a dict has unique keys). -/
def dictPop : Dict → String → Except String Dict
  | [], key => Except.error key
  | (k, v) :: rest, key =>
    if k = key then Except.ok rest
    else
      match dictPop rest key with
      | Except.ok rest2 => Except.ok ((k, v) :: rest2)
      | Except.error e => Except.error e

/-- The loop `for param in used_params: json_request.pop(param)`:
sequential strict removal; the first absent key aborts with its
`KeyError`. -/
def popAll : Dict → List String → Except String Dict
  | m, [] => Except.ok m
  | m, p :: ps =>
    match dictPop m p with
    | Except.ok m2 => popAll m2 ps
    | Except.error e => Except.error e

/-- Characters `urllib.parse.quote` never encodes: ASCII letters, digits,
and `_.-~`. -/
def isAlwaysSafe (c : Char) : Bool :=
  (65 ≤ c.toNat && c.toNat ≤ 90) || (97 ≤ c.toNat && c.toNat ≤ 122) ||
  (48 ≤ c.toNat && c.toNat ≤ 57) || c == '_' || c == '.' || c == '~' || c == '-'

/-- Upper-case hex digit, as `urllib.parse.quote` emits. -/
def hexDigitUpper (n : Nat) : Char :=
  if n < 10 then Char.ofNat (48 + n) else Char.ofNat (55 + n)

/-- UTF-8 byte sequence of a code point. -/
def utf8Bytes (n : Nat) : List Nat :=
  if n < 128 then [n]
  else if n < 2048 then [192 + n / 64, 128 + n % 64]
  else if n < 65536 then [224 + n / 4096, 128 + (n / 64) % 64, 128 + n % 64]
  else [240 + n / 262144, 128 + (n / 4096) % 64, 128 + (n / 64) % 64, 128 + n % 64]

/-- `%XX` escape of one byte. -/
def percentByte (b : Nat) : String :=
  "%" ++ String.singleton (hexDigitUpper (b / 16)) ++ String.singleton (hexDigitUpper (b % 16))

/-- `urllib.parse.quote_plus` on one character (safe set empty, as
`urlencode` uses it): safe characters pass through, space becomes `+`,
everything else is percent-encoded byte-wise. -/
def quotePlusChar (c : Char) : String :=
  if isAlwaysSafe c then String.singleton c
  else if c == ' ' then "+"
  else String.join ((utf8Bytes c.toNat).map percentByte)

/-- `urllib.parse.quote_plus` with default arguments. -/
def quote_plus (s : String) : String :=
  String.join (s.data.map quotePlusChar)

/-- The `(key, value)` pairs `urllib.parse.urlencode(query, doseq=True)`
emits, before percent-encoding: a scalar contributes one pair, a repeated
field one pair per element. -/
def queryPairs : Dict → List (String × String)
  | [] => []
  | (k, QueryValue.scalar s) :: rest => (k, s) :: queryPairs rest
  | (k, QueryValue.list xs) :: rest => (xs.map (fun x => (k, x))) ++ queryPairs rest

/-- `urllib.parse.urlencode(query, doseq=True)`: each pair rendered as
`quote_plus(k)=quote_plus(v)`, joined with `&`. -/
def urlencode (query : Dict) : String :=
  String.intercalate "&"
    ((queryPairs query).map (fun p => quote_plus p.1 ++ "=" ++ quote_plus p.2))

/-- Lower-case hex digit, as Python `bytes.__repr__` emits in `\xNN`. -/
def hexDigitLower (n : Nat) : Char :=
  if n < 10 then Char.ofNat (48 + n) else Char.ofNat (87 + n)

/-- One byte of Python `str(bytes)` output (the `repr` body). -/
def byteRepr (b : Nat) : String :=
  if b == 92 then "\x5c\x5c"
  else if b == 39 then "\x5c\x27"
  else if b == 9 then "\x5ct"
  else if b == 10 then "\x5cn"
  else if b == 13 then "\x5cr"
  else if 32 ≤ b && b < 127 then String.singleton (Char.ofNat b)
  else "\x5cx" ++ String.singleton (hexDigitLower (b / 16)) ++ String.singleton (hexDigitLower (b % 16))

/-- Python `str(response.content)` for a bytes object: `b'...'`
(the alternate quote selection when the body itself holds a quote is
elided; no claim depends on it). -/
def bytesStr (bs : List Nat) : String :=
  "b\x27" ++ String.join (bs.map byteRepr) ++ "\x27"

/-- Python `repr` of a string value inside a dict display. -/
def strRepr (s : String) : String := "\x27" ++ s ++ "\x27"

/-- Python `repr` of one value of the encoded mapping. -/
def valueRepr : QueryValue → String
  | QueryValue.scalar s => strRepr s
  | QueryValue.list xs => "[" ++ String.intercalate ", " (xs.map strRepr) ++ "]"

/-- Python `f"{json_request}"`: the dict display of the encoded mapping. -/
def dictRepr (m : Dict) : String :=
  "\x7b" ++ String.intercalate ", " (m.map (fun p => strRepr p.1 ++ ": " ++ valueRepr p.2)) ++ "\x7d"

/-- A POST request as handed to `session.post`: target URL, JSON body
(the encoded mapping, which `requests` serializes), and headers. -/
structure PostRequest where
  url : String
  json : Dict
  headers : List (String × String)
deriving DecidableEq

/-- The state of a `requests` session: an identity, whether `close()` has
run, and the log of requests issued through it. -/
structure Session where
  sid : Nat
  closed : Bool
  getLog : List String
  postLog : List PostRequest
deriving DecidableEq

/-- `requests.session()`: a fresh open session with the given identity and
no requests issued yet. -/
def requests_session (fresh : Nat) : Session :=
  { sid := fresh, closed := false, getLog := [], postLog := [] }

/-- The `RestClient` state: the session created in `__init__` and the
configured base address. -/
structure RestClient where
  _session : Session
  rest_address : String
deriving DecidableEq

/-- `RestClient.__init__`: create one fresh session and store the base
address. -/
def RestClient.init (rest_address : String) (fresh : Nat) : RestClient :=
  { _session := requests_session fresh, rest_address := rest_address }

/-- The errors `get`/`post` can raise: `KeyError` from the strict pop
(carrying the missing key) or `RuntimeError` (carrying the message). -/
inductive TransportError where
  | keyError : String → TransportError
  | runtimeError : String → TransportError
deriving DecidableEq

/-- The `RuntimeError` message of `get` for a non-200 response. -/
def getErrorMessage (r : Response) : String :=
  "Error when sending a GET request.\n Response: " ++ toString r.status_code ++ ", " ++ bytesStr r.content ++ ")"

/-- The `RuntimeError` message of `post` for a non-200 response. -/
def postErrorMessage (json_request : Dict) (r : Response) : String :=
  "Error when sending a POST request.\n Request: " ++ dictRepr json_request ++ "\n Response: " ++ toString r.status_code ++ ", " ++ bytesStr r.content ++ ")"

/-- The URL-construction phase of `RestClient.get` (lines 59-74): `None`
request targets `base + path`; otherwise strict pop of `used_params`, then
doseq urlencode, empty query giving `base + path` and non-empty giving
`base + path + "?" + query`. -/
def RestClient.getUrl (c : RestClient) (url_base_path : String)
    (request : Option Dict) (used_params : Option (List String)) :
    Except String String :=
  match request with
  | none => Except.ok (c.rest_address ++ url_base_path)
  | some req =>
    let popped : Except String Dict :=
      match used_params with
      | none => Except.ok req
      | some ps => popAll req ps
    match popped with
    | Except.error k => Except.error k
    | Except.ok json_request =>
      let url_encoded_request := urlencode json_request
      if url_encoded_request.length = 0 then
        Except.ok (c.rest_address ++ url_base_path)
      else
        Except.ok (c.rest_address ++ url_base_path ++ "?" ++ url_encoded_request)

/-- `RestClient.get`: build the URL (a `KeyError` from the pop loop
propagates before any request is issued), issue the GET through the shared
session (recorded in `getLog`), then raise `RuntimeError` on a status code
other than 200 and return the raw body on 200.  `http` is the transport:
the response the session returns for a URL. -/
def RestClient.get (c : RestClient) (url_base_path : String)
    (request : Option Dict) (used_params : Option (List String))
    (http : String → Response) :
    Except TransportError (List Nat) × RestClient :=
  match c.getUrl url_base_path request used_params with
  | Except.error k => (Except.error (TransportError.keyError k), c)
  | Except.ok url =>
    let response := http url
    let c2 : RestClient :=
      { c with _session := { c._session with getLog := c._session.getLog ++ [url] } }
    if response.status_code ≠ 200 then
      (Except.error (TransportError.runtimeError (getErrorMessage response)), c2)
    else
      (Except.ok response.content, c2)

/-- The request `RestClient.post` hands to `session.post` (lines 97-101):
URL `base + path`, the encoded mapping as JSON body, and headers declaring
JSON content type and accept. -/
def RestClient.postRequestOf (c : RestClient) (url_base_path : String)
    (request : Dict) : PostRequest :=
  { url := c.rest_address ++ url_base_path
    json := request
    headers := [("Content-type", "application/json"), ("Accept", "application/json")] }

/-- `RestClient.post`: one POST to `base + path` with the encoded mapping
as JSON body and JSON content-type/accept headers, issued through the
shared session (recorded in `postLog`); `RuntimeError` on a status code
other than 200, raw body on 200. -/
def RestClient.post (c : RestClient) (url_base_path : String) (request : Dict)
    (httpPost : PostRequest → Response) :
    Except TransportError (List Nat) × RestClient :=
  let json_request := request
  let req : PostRequest := c.postRequestOf url_base_path json_request
  let response := httpPost req
  let c2 : RestClient :=
    { c with _session := { c._session with postLog := c._session.postLog ++ [req] } }
  if response.status_code ≠ 200 then
    (Except.error (TransportError.runtimeError (postErrorMessage json_request response)), c2)
  else
    (Except.ok response.content, c2)

/-- `RestClient.__del__`: close the session. -/
def RestClient.del (c : RestClient) : RestClient :=
  { c with _session := { c._session with closed := true } }

/-- `sub` occurs contiguously inside `msg`. -/
def containsStr (msg sub : String) : Prop :=
  ∃ a b, msg = a ++ (sub ++ b)

/-! ### Helper lemmas about the strict pop loop -/

theorem dictPop_keys_subset {m m2 : Dict} {key : String}
    (h : dictPop m key = Except.ok m2) :
    ∀ j, j ∈ keys m2 → j ∈ keys m := by
  induction m generalizing m2 with
  | nil => simp [dictPop] at h
  | cons hd tl ih =>
    obtain ⟨k, v⟩ := hd
    by_cases hk : k = key
    · simp [dictPop, hk] at h
      subst h
      intro j hj
      exact List.mem_cons_of_mem _ hj
    · simp only [dictPop, if_neg hk] at h
      cases hrec : dictPop tl key with
      | ok tl2 =>
        rw [hrec] at h
        cases h
        intro j hj
        simp only [keys, List.map_cons, List.mem_cons] at hj ⊢
        rcases hj with hj | hj
        · exact Or.inl hj
        · exact Or.inr (ih hrec j hj)
      | error e =>
        rw [hrec] at h
        cases h

theorem dictPop_error_of_not_mem {m : Dict} {key : String}
    (h : key ∉ keys m) : dictPop m key = Except.error key := by
  induction m with
  | nil => simp [dictPop]
  | cons hd tl ih =>
    obtain ⟨k, v⟩ := hd
    simp only [keys, List.map_cons, List.mem_cons, not_or] at h
    obtain ⟨h1, h2⟩ := h
    have hkk : ¬ k = key := fun hkk => h1 hkk.symm
    simp only [dictPop, if_neg hkk, ih h2]

theorem dictPop_ok_of_mem {m : Dict} {key : String} (h : key ∈ keys m) :
    ∃ m2, dictPop m key = Except.ok m2 := by
  induction m with
  | nil => simp [keys] at h
  | cons hd tl ih =>
    obtain ⟨k, v⟩ := hd
    by_cases hk : k = key
    · exact ⟨tl, by simp [dictPop, hk]⟩
    · simp only [keys, List.map_cons, List.mem_cons] at h
      rcases h with h | h
      · exact absurd h.symm hk
      · obtain ⟨tl2, htl2⟩ := ih h
        exact ⟨(k, v) :: tl2, by simp [dictPop, if_neg hk, htl2]⟩

theorem dictPop_mem_keys {m m2 : Dict} {key : String}
    (hnd : (keys m).Nodup) (h : dictPop m key = Except.ok m2) :
    ∀ j, j ∈ keys m2 ↔ (j ∈ keys m ∧ j ≠ key) := by
  induction m generalizing m2 with
  | nil => simp [dictPop] at h
  | cons hd tl ih =>
    obtain ⟨k, v⟩ := hd
    simp only [keys, List.map_cons, List.nodup_cons] at hnd
    obtain ⟨hk_tl, hnd_tl⟩ := hnd
    by_cases hk : k = key
    · simp only [dictPop, if_pos hk] at h
      cases h
      subst hk
      intro j
      simp only [keys, List.map_cons, List.mem_cons]
      constructor
      · intro hj
        exact ⟨Or.inr hj, fun hje => hk_tl (hje ▸ hj)⟩
      · rintro ⟨hj | hj, hne⟩
        · exact absurd hj hne
        · exact hj
    · simp only [dictPop, if_neg hk] at h
      cases hrec : dictPop tl key with
      | ok tl2 =>
        rw [hrec] at h
        cases h
        intro j
        simp only [keys, List.map_cons, List.mem_cons]
        constructor
        · rintro (hj | hj)
          · exact ⟨Or.inl hj, fun hje => hk (hj ▸ hje)⟩
          · obtain ⟨hj1, hj2⟩ := (ih hnd_tl hrec j).mp hj
            exact ⟨Or.inr hj1, hj2⟩
        · rintro ⟨hj | hj, hne⟩
          · exact Or.inl hj
          · exact Or.inr ((ih hnd_tl hrec j).mpr ⟨hj, hne⟩)
      | error e =>
        rw [hrec] at h
        cases h

theorem dictPop_nodup {m m2 : Dict} {key : String}
    (hnd : (keys m).Nodup) (h : dictPop m key = Except.ok m2) :
    (keys m2).Nodup := by
  induction m generalizing m2 with
  | nil => simp [dictPop] at h
  | cons hd tl ih =>
    obtain ⟨k, v⟩ := hd
    simp only [keys, List.map_cons, List.nodup_cons] at hnd
    obtain ⟨hk_tl, hnd_tl⟩ := hnd
    by_cases hk : k = key
    · simp only [dictPop, if_pos hk] at h
      cases h
      exact hnd_tl
    · simp only [dictPop, if_neg hk] at h
      cases hrec : dictPop tl key with
      | ok tl2 =>
        rw [hrec] at h
        cases h
        simp only [keys, List.map_cons, List.nodup_cons]
        exact ⟨fun hmem => hk_tl (dictPop_keys_subset hrec k hmem), ih hnd_tl hrec⟩
      | error e =>
        rw [hrec] at h
        cases h

theorem popAll_mem_keys {ps : List String} {m m2 : Dict}
    (hnd : (keys m).Nodup) (h : popAll m ps = Except.ok m2) :
    ∀ j, j ∈ keys m2 ↔ (j ∈ keys m ∧ j ∉ ps) := by
  induction ps generalizing m with
  | nil =>
    simp only [popAll] at h
    cases h
    simp
  | cons p ps ih =>
    simp only [popAll] at h
    cases hrec : dictPop m p with
    | ok mmid =>
      rw [hrec] at h
      intro j
      rw [ih (dictPop_nodup hnd hrec) h j, dictPop_mem_keys hnd hrec j]
      simp only [List.mem_cons, not_or]
      tauto
    | error e =>
      rw [hrec] at h
      cases h

theorem popAll_error_of_absent {ps : List String} {m : Dict} {key : String}
    (hk : key ∈ ps) (hnm : key ∉ keys m) :
    ∃ e, popAll m ps = Except.error e := by
  induction ps generalizing m with
  | nil => simp at hk
  | cons p ps ih =>
    by_cases hp : p = key
    · subst hp
      exact ⟨p, by simp [popAll, dictPop_error_of_not_mem hnm]⟩
    · cases hrec : dictPop m p with
      | ok mmid =>
        have hk_tl : key ∈ ps := by
          rcases List.mem_cons.mp hk with h | h
          · exact absurd h.symm hp
          · exact h
        have hnm2 : key ∉ keys mmid := fun hmem => hnm (dictPop_keys_subset hrec key hmem)
        obtain ⟨e, he⟩ := ih hk_tl hnm2
        exact ⟨e, by simp [popAll, hrec, he]⟩
      | error e =>
        exact ⟨e, by simp [popAll, hrec]⟩

/-! ### Helper lemmas about message containment and fixtures -/

theorem containsStr_of_eq {msg a s b : String} (h : msg = a ++ s ++ b) :
    containsStr msg s :=
  ⟨a, b, by rw [h, String.append_assoc]⟩

/-- A concrete client used to instantiate the theorems. -/
def wClient : RestClient := RestClient.init "http://node" 0

/-- A concrete transport answering every URL with a fixed status and the
body bytes of "hi". -/
def wHttp (status : Nat) : String → Response :=
  fun _ => { status_code := status, content := [104, 105] }

/-- A concrete POST transport answering with a fixed status. -/
def wHttpPost (status : Nat) : PostRequest → Response :=
  fun _ => { status_code := status, content := [104, 105] }

/-- A concrete encoded mapping with one scalar field. -/
def wDict : Dict := [("a", QueryValue.scalar "1")]

/-- C3: during `get`, every key listed in `used_params` is removed from the
encoded mapping (a key survives exactly when it was present and not
listed), and if any listed key is absent from the mapping the operation
fails with a lookup error (`KeyError`) rather than silently skipping it. -/
theorem get_used_params_strict_removal
    (c : RestClient) (url_base_path : String) (m m2 : Dict) (ps : List String)
    (k : String) (http : String → Response)
    (hnd : (keys m).Nodup) :
    (popAll m ps = Except.ok m2 → ∀ j, j ∈ keys m2 ↔ (j ∈ keys m ∧ j ∉ ps)) ∧
    (k ∈ ps → k ∉ keys m →
      ∃ e, (c.get url_base_path (some m) (some ps) http).1
            = Except.error (TransportError.keyError e)) := by
  constructor
  · intro h
    exact popAll_mem_keys hnd h
  · intro hk hnm
    obtain ⟨e, he⟩ := popAll_error_of_absent hk hnm
    refine ⟨e, ?_⟩
    simp [RestClient.get, RestClient.getUrl, he]

/-- A concrete encoded mapping with two scalar fields. -/
def wDict2 : Dict := [("a", QueryValue.scalar "1"), ("b", QueryValue.scalar "2")]

/-- Witness for C3: excluding `[b]` from the mapping `{a: 1, b: 2}` leaves
exactly the key `a`. -/
theorem get_used_params_strict_removal_witness :
    "a" ∈ keys wDict ↔ ("a" ∈ keys wDict2 ∧ "a" ∉ ["b"]) :=
  (get_used_params_strict_removal wClient "/p" wDict2 wDict ["b"] "b"
      (wHttp 200) (by decide)).1 (by rfl) "a"

/-- C10: exclusion-list removal is sequential and strict: when the same key
occurs twice in `used_params` and is present in the mapping, the first
occurrence removes it and the second occurrence raises the lookup error,
so `get` fails with a `KeyError` for that key. -/
theorem get_duplicate_used_param_strict
    (c : RestClient) (url_base_path : String) (m : Dict) (k : String)
    (http : String → Response)
    (hnd : (keys m).Nodup) (hk : k ∈ keys m) :
    (∃ m2, dictPop m k = Except.ok m2 ∧ k ∉ keys m2 ∧
        popAll m [k, k] = Except.error k) ∧
    (c.get url_base_path (some m) (some [k, k]) http).1
      = Except.error (TransportError.keyError k) := by
  obtain ⟨m2, hm2⟩ := dictPop_ok_of_mem hk
  have hnot : k ∉ keys m2 := fun hmem => ((dictPop_mem_keys hnd hm2 k).mp hmem).2 rfl
  have hpop : popAll m [k, k] = Except.error k := by
    simp [popAll, hm2, dictPop_error_of_not_mem hnot]
  refine ⟨⟨m2, hm2, hnot, hpop⟩, ?_⟩
  simp [RestClient.get, RestClient.getUrl, hpop]

/-- Witness for C10: excluding `[a, a]` from the mapping `{a: 1}` makes
`get` fail with `KeyError(a)`. -/
theorem get_duplicate_used_param_strict_witness :
    (wClient.get "/p" (some wDict) (some ["a", "a"]) (wHttp 200)).1
      = Except.error (TransportError.keyError "a") :=
  (get_duplicate_used_param_strict wClient "/p" wDict "a" (wHttp 200)
      (by decide) (by decide)).2

/-- C9: with `request = None`, `get` ignores `used_params` entirely: the
result is the same as with no exclusion list, the targeted URL is
`base + path`, and no `KeyError` can be raised. -/
theorem get_none_request_ignores_used_params
    (c : RestClient) (url_base_path : String) (used_params : Option (List String))
    (http : String → Response) :
    c.get url_base_path none used_params http
      = c.get url_base_path none none http ∧
    ((c.get url_base_path none used_params http).2)._session.getLog
      = c._session.getLog ++ [c.rest_address ++ url_base_path] ∧
    (∀ e, (c.get url_base_path none used_params http).1
      ≠ Except.error (TransportError.keyError e)) := by
  refine ⟨rfl, ?_, ?_⟩
  · simp only [RestClient.get, RestClient.getUrl]
    split <;> rfl
  · intro e
    simp only [RestClient.get, RestClient.getUrl]
    split <;> simp

/-- Witness for C9: the no-request call with a non-empty exclusion list
does not raise the lookup error. -/
theorem get_none_request_ignores_used_params_witness :
    (wClient.get "/p" none (some ["a"]) (wHttp 200)).1
      ≠ Except.error (TransportError.keyError "a") :=
  (get_none_request_ignores_used_params wClient "/p" (some ["a"]) (wHttp 200)).2.2 "a"

/-- C2: `get` with no request targets exactly `base + path` (no `?` appears
when neither part holds one); with a request whose mapping is empty after
exclusion the URL is likewise `base + path`, and otherwise it is
`base + path + "?" + encoded query`. -/
theorem get_url_formation
    (c : RestClient) (url_base_path : String) (m m2 : Dict) (ps : List String)
    (used_params : Option (List String)) (http : String → Response)
    (hq1 : '?' ∉ c.rest_address.data) (hq2 : '?' ∉ url_base_path.data)
    (hpop : popAll m ps = Except.ok m2) :
    c.getUrl url_base_path none used_params
      = Except.ok (c.rest_address ++ url_base_path) ∧
    ((c.get url_base_path none used_params http).2)._session.getLog
      = c._session.getLog ++ [c.rest_address ++ url_base_path] ∧
    '?' ∉ (c.rest_address ++ url_base_path).data ∧
    c.getUrl url_base_path (some m) (some ps)
      = Except.ok (if (urlencode m2).length = 0 then c.rest_address ++ url_base_path
          else c.rest_address ++ url_base_path ++ "?" ++ urlencode m2) := by
  refine ⟨rfl, ?_, ?_, ?_⟩
  · simp only [RestClient.get, RestClient.getUrl]
    split <;> rfl
  · simp only [String.data_append, List.mem_append]
    rintro (h | h)
    · exact hq1 h
    · exact hq2 h
  · simp only [RestClient.getUrl, hpop]
    split <;> rfl

/-- Witness for C2: with base `http://node`, path `/p`, mapping `{a: 1, b: 2}`
and exclusion list `[a, b]`, the query is empty and the URL is
`http://node/p`. -/
theorem get_url_formation_witness :
    wClient.getUrl "/p" none none = Except.ok ("http://node" ++ "/p") ∧
    wClient.getUrl "/p" (some wDict2) (some ["a", "b"])
      = Except.ok (if (urlencode ([] : Dict)).length = 0 then "http://node" ++ "/p"
          else "http://node" ++ "/p" ++ "?" ++ urlencode ([] : Dict)) := by
  have h := get_url_formation wClient "/p" wDict2 [] ["a", "b"] none (wHttp 200)
    (by decide) (by decide) (by rfl)
  exact ⟨h.1, h.2.2.2⟩

/-- C4: on a response with status code exactly 200, `get` and `post` return
the raw response body bytes unmodified. -/
theorem status200_returns_raw_body
    (c : RestClient) (url_base_path url : String) (request : Option Dict)
    (used_params : Option (List String)) (m : Dict)
    (http : String → Response) (httpPost : PostRequest → Response)
    (hurl : c.getUrl url_base_path request used_params = Except.ok url)
    (hg : (http url).status_code = 200)
    (hp : (httpPost (c.postRequestOf url_base_path m)).status_code = 200) :
    (c.get url_base_path request used_params http).1
      = Except.ok (http url).content ∧
    (c.post url_base_path m httpPost).1
      = Except.ok (httpPost (c.postRequestOf url_base_path m)).content := by
  constructor
  · simp only [RestClient.get, hurl]
    rw [if_neg (fun hne => hne hg)]
  · simp only [RestClient.post]
    rw [if_neg (fun hne => hne hp)]

/-- Witness for C4: a 200 response makes both calls return the body bytes
`hi` = `[104, 105]`. -/
theorem status200_returns_raw_body_witness :
    (wClient.get "/p" none none (wHttp 200)).1 = Except.ok ((wHttp 200) "http://node/p").content ∧
    (wClient.post "/p" wDict (wHttpPost 200)).1
      = Except.ok ((wHttpPost 200) (wClient.postRequestOf "/p" wDict)).content :=
  status200_returns_raw_body wClient "/p" "http://node/p" none none wDict
    (wHttp 200) (wHttpPost 200) (by rfl) (by rfl) (by rfl)

/-- C1: for every response whose status code is not exactly 200 (201, 204,
3xx, ... included), `get` and `post` raise a `RuntimeError` whose message
includes the status code and the response body content, and for `post`
additionally the encoded outgoing request mapping. -/
theorem non200_raises_transport_error
    (c : RestClient) (url_base_path url : String) (request : Option Dict)
    (used_params : Option (List String)) (m : Dict)
    (http : String → Response) (httpPost : PostRequest → Response)
    (hurl : c.getUrl url_base_path request used_params = Except.ok url)
    (hg : (http url).status_code ≠ 200)
    (hp : (httpPost (c.postRequestOf url_base_path m)).status_code ≠ 200) :
    (c.get url_base_path request used_params http).1
      = Except.error (TransportError.runtimeError (getErrorMessage (http url))) ∧
    containsStr (getErrorMessage (http url)) (toString (http url).status_code) ∧
    containsStr (getErrorMessage (http url)) (bytesStr (http url).content) ∧
    (c.post url_base_path m httpPost).1
      = Except.error (TransportError.runtimeError
          (postErrorMessage m (httpPost (c.postRequestOf url_base_path m)))) ∧
    containsStr (postErrorMessage m (httpPost (c.postRequestOf url_base_path m)))
      (toString (httpPost (c.postRequestOf url_base_path m)).status_code) ∧
    containsStr (postErrorMessage m (httpPost (c.postRequestOf url_base_path m)))
      (bytesStr (httpPost (c.postRequestOf url_base_path m)).content) ∧
    containsStr (postErrorMessage m (httpPost (c.postRequestOf url_base_path m)))
      (dictRepr m) := by
  refine ⟨?_, ?_, ?_, ?_, ?_, ?_, ?_⟩
  · simp only [RestClient.get, hurl]
    rw [if_pos hg]
  · exact containsStr_of_eq (a := "Error when sending a GET request.\n Response: ")
      (b := ", " ++ bytesStr (http url).content ++ ")")
      (by simp [getErrorMessage, String.append_assoc])
  · exact containsStr_of_eq
      (a := "Error when sending a GET request.\n Response: "
        ++ toString (http url).status_code ++ ", ")
      (b := ")") (by simp [getErrorMessage, String.append_assoc])
  · simp only [RestClient.post]
    rw [if_pos hp]
  · exact containsStr_of_eq
      (a := "Error when sending a POST request.\n Request: " ++ dictRepr m
        ++ "\n Response: ")
      (b := ", " ++ bytesStr (httpPost (c.postRequestOf url_base_path m)).content ++ ")")
      (by simp [postErrorMessage, String.append_assoc])
  · exact containsStr_of_eq
      (a := "Error when sending a POST request.\n Request: " ++ dictRepr m
        ++ "\n Response: "
        ++ toString (httpPost (c.postRequestOf url_base_path m)).status_code ++ ", ")
      (b := ")") (by simp [postErrorMessage, String.append_assoc])
  · exact containsStr_of_eq (a := "Error when sending a POST request.\n Request: ")
      (b := "\n Response: "
        ++ toString (httpPost (c.postRequestOf url_base_path m)).status_code
        ++ ", " ++ bytesStr (httpPost (c.postRequestOf url_base_path m)).content ++ ")")
      (by simp [postErrorMessage, String.append_assoc])

/-- Witness for C1: a 201 response makes `get` raise the `RuntimeError`
carrying its message. -/
theorem non200_raises_transport_error_witness :
    (wClient.get "/p" none none (wHttp 201)).1
      = Except.error (TransportError.runtimeError
          (getErrorMessage ((wHttp 201) "http://node/p"))) :=
  (non200_raises_transport_error wClient "/p" "http://node/p" none none wDict
    (wHttp 201) (wHttpPost 404) (by rfl) (by decide) (by decide)).1

/-- C6: `post` issues exactly one POST, appended to the session log, whose
URL is `base + path` (no query string attached), whose JSON body is the
encoded mapping of the request, and whose headers declare Content-type and
Accept as application/json. -/
theorem post_single_json_request
    (c : RestClient) (url_base_path : String) (m : Dict)
    (httpPost : PostRequest → Response) :
    ((c.post url_base_path m httpPost).2)._session.postLog
      = c._session.postLog ++ [c.postRequestOf url_base_path m] ∧
    (c.postRequestOf url_base_path m).url = c.rest_address ++ url_base_path ∧
    (c.postRequestOf url_base_path m).json = m ∧
    (c.postRequestOf url_base_path m).headers
      = [("Content-type", "application/json"), ("Accept", "application/json")] := by
  refine ⟨?_, rfl, rfl, rfl⟩
  simp only [RestClient.post]
  split <;> rfl

/-- C7: one session is created at construction and that session is the one
every later `get`/`post` goes through (its identity is preserved by both),
and no operation — `get`, `post`, or disposal — mutates the configured
base address. -/
theorem session_created_once_and_address_immutable
    (rest_address url_base_path : String) (fresh : Nat) (c : RestClient)
    (request : Option Dict) (used_params : Option (List String)) (m : Dict)
    (http : String → Response) (httpPost : PostRequest → Response) :
    (RestClient.init rest_address fresh)._session = requests_session fresh ∧
    (RestClient.init rest_address fresh).rest_address = rest_address ∧
    ((c.get url_base_path request used_params http).2)._session.sid
      = c._session.sid ∧
    ((c.post url_base_path m httpPost).2)._session.sid = c._session.sid ∧
    ((c.get url_base_path request used_params http).2).rest_address
      = c.rest_address ∧
    ((c.post url_base_path m httpPost).2).rest_address = c.rest_address ∧
    (RestClient.del c).rest_address = c.rest_address := by
  refine ⟨rfl, rfl, ?_, ?_, ?_, ?_, rfl⟩
  · cases hurl : c.getUrl url_base_path request used_params with
    | ok url =>
      simp only [RestClient.get, hurl]
      split <;> rfl
    | error e => simp only [RestClient.get, hurl]
  · simp only [RestClient.post]
    split <;> rfl
  · cases hurl : c.getUrl url_base_path request used_params with
    | ok url =>
      simp only [RestClient.get, hurl]
      split <;> rfl
    | error e => simp only [RestClient.get, hurl]
  · simp only [RestClient.post]
    split <;> rfl

/-! ### Helper lemmas about doseq query encoding -/

theorem queryPairs_key_mem {m : Dict} {p : String × String}
    (h : p ∈ queryPairs m) : p.1 ∈ keys m := by
  induction m with
  | nil => simp [queryPairs] at h
  | cons hd tl ih =>
    obtain ⟨k, v⟩ := hd
    cases v with
    | scalar s =>
      simp only [queryPairs, List.mem_cons] at h
      rcases h with h | h
      · simp [keys, h]
      · simp only [keys, List.map_cons, List.mem_cons]
        exact Or.inr (ih h)
    | list xs =>
      simp only [queryPairs, List.mem_append, List.mem_map] at h
      rcases h with ⟨x, _, hx⟩ | h
      · simp [keys, ← hx]
      · simp only [keys, List.map_cons, List.mem_cons]
        exact Or.inr (ih h)

theorem queryPairs_filter_list {m : Dict} {k : String} {xs : List String}
    (hnd : (keys m).Nodup) (hmem : (k, QueryValue.list xs) ∈ m) :
    (queryPairs m).filter (fun p => p.1 == k) = xs.map (fun x => (k, x)) := by
  induction m with
  | nil => simp at hmem
  | cons hd tl ih =>
    obtain ⟨k2, v⟩ := hd
    simp only [keys, List.map_cons, List.nodup_cons] at hnd
    obtain ⟨hk2, hndtl⟩ := hnd
    rcases List.mem_cons.mp hmem with heq | htl
    · cases heq
      simp only [queryPairs, List.filter_append]
      have h1 : (xs.map (fun x => (k, x))).filter (fun p => p.1 == k)
          = xs.map (fun x => (k, x)) := by
        apply List.filter_eq_self.mpr
        intro p hp
        obtain ⟨x, _, hx⟩ := List.mem_map.mp hp
        rw [← hx]
        simp
      have h2 : (queryPairs tl).filter (fun p => p.1 == k) = [] := by
        apply List.filter_eq_nil_iff.mpr
        intro p hp
        have hpk := queryPairs_key_mem hp
        simp only [beq_iff_eq]
        intro heq2
        exact hk2 (heq2 ▸ hpk)
      rw [h1, h2, List.append_nil]
    · have hkmem : k ∈ keys tl :=
        List.mem_map.mpr ⟨(k, QueryValue.list xs), htl, rfl⟩
      have hk2k : (k2 == k) = false := by
        apply beq_eq_false_iff_ne.mpr
        intro h
        exact hk2 (h ▸ hkmem)
      cases v with
      | scalar s =>
        simp only [queryPairs, List.filter_cons, hk2k]
        exact ih hndtl htl
      | list ys =>
        simp only [queryPairs, List.filter_append]
        have h1 : (ys.map (fun y => (k2, y))).filter (fun p => p.1 == k) = [] := by
          apply List.filter_eq_nil_iff.mpr
          intro p hp
          obtain ⟨y, _, hy⟩ := List.mem_map.mp hp
          rw [← hy]
          simp [hk2k]
        rw [h1, List.nil_append]
        exact ih hndtl htl

theorem queryPairs_keys_iff {m : Dict}
    (hne : ∀ j ys, (j, QueryValue.list ys) ∈ m → ys ≠ []) :
    ∀ j, j ∈ (queryPairs m).map Prod.fst ↔ j ∈ keys m := by
  induction m with
  | nil => simp [queryPairs, keys]
  | cons hd tl ih =>
    obtain ⟨k, v⟩ := hd
    have hne_tl : ∀ j ys, (j, QueryValue.list ys) ∈ tl → ys ≠ [] :=
      fun j ys h => hne j ys (List.mem_cons_of_mem _ h)
    intro j
    cases v with
    | scalar s =>
      simp only [queryPairs, List.map_cons, List.mem_cons, keys]
      exact or_congr Iff.rfl (ih hne_tl j)
    | list xs =>
      have hxs : xs ≠ [] := hne k xs (List.mem_cons_self _ _)
      obtain ⟨x0, hx0⟩ := List.exists_mem_of_ne_nil xs hxs
      simp only [queryPairs, List.map_append, List.mem_append, List.map_map,
        keys, List.map_cons, List.mem_cons]
      constructor
      · rintro (h | h)
        · obtain ⟨x, _, hx⟩ := List.mem_map.mp h
          exact Or.inl hx.symm
        · exact Or.inr ((ih hne_tl j).mp h)
      · rintro (h | h)
        · subst h
          exact Or.inl (List.mem_map.mpr ⟨x0, hx0, rfl⟩)
        · exact Or.inr ((ih hne_tl j).mpr h)

/-- C5: the remaining mapping is URL-encoded with doseq semantics: a field
whose value is a list of n scalars yields exactly its n repeated
`key=value` pairs (never one comma-joined value — e.g. `tags=[a,b]`
encodes as `tags=a&tags=b`), and the emitted pairs carry exactly the keys
remaining after exclusion. -/
theorem get_query_doseq_expansion
    (m : Dict) (k : String) (xs : List String)
    (hnd : (keys m).Nodup)
    (hmem : (k, QueryValue.list xs) ∈ m)
    (hne : ∀ j ys, (j, QueryValue.list ys) ∈ m → ys ≠ []) :
    (queryPairs m).filter (fun p => p.1 == k) = xs.map (fun x => (k, x)) ∧
    (∀ j, j ∈ (queryPairs m).map Prod.fst ↔ j ∈ keys m) ∧
    urlencode m = String.intercalate "&"
      ((queryPairs m).map (fun p => quote_plus p.1 ++ "=" ++ quote_plus p.2)) ∧
    urlencode [("tags", QueryValue.list ["a", "b"])] = "tags=a&tags=b" := by
  refine ⟨queryPairs_filter_list hnd hmem, queryPairs_keys_iff hne, rfl, ?_⟩
  decide

/-- Witness for C5: in the mapping `{mode: sync, tags: [a, b]}` the field
`tags` expands into its two repeated pairs. -/
theorem get_query_doseq_expansion_witness :
    (queryPairs [("mode", QueryValue.scalar "sync"), ("tags", QueryValue.list ["a", "b"])]).filter
        (fun p => p.1 == "tags")
      = (["a", "b"].map (fun x => ("tags", x))) :=
  (get_query_doseq_expansion
      [("mode", QueryValue.scalar "sync"), ("tags", QueryValue.list ["a", "b"])]
      "tags" ["a", "b"] (by decide) (by decide)
      (by
        intro j ys h
        simp only [List.mem_cons, List.mem_singleton, Prod.mk.injEq,
          List.not_mem_nil, or_false] at h
        rcases h with ⟨h1, h2⟩ | ⟨h1, h2⟩
        · exact absurd h2 (by simp)
        · cases h2
          decide)).1
